import Mathlib

/-!
Verification of the spell-checker diagnostic pipeline
(`src/utils/textProcessing.ts`, `src/services/SpellService.ts`,
`src/features/SpellCheckerProvider.ts`).

Text is modelled as `List Char` (a JS string addressed by offsets).  Each
built-in removal regex of `DEFAULT_REMOVAL_PATTERNS` is hand-compiled into a
matcher: a function from a suffix of the text to the length of the leftmost
match starting at that suffix, together with a generic global scan that
reproduces the semantics of `String.replace` with the `g` flag (leftmost
match, resume at the end of the previous match).  External collaborators
(the hunspell backing checker, the filesystem reads of `.aff`/`.dic` files,
the host editor) enter as explicit function or `Except` parameters.
-/

set_option maxRecDepth 100000

namespace SpellChecker

/-! ## Characters and character classes -/

/-- The backtick character, code point 96. -/
def backquote : Char := Char.ofNat 96

/-- Straight apostrophe, code point 39. -/
def apostropheChar : Char := Char.ofNat 39

/-- Curly (right single quotation mark) apostrophe, code point 8217. -/
def curlyApostrophe : Char := Char.ofNat 8217

/-- Opening curly brace, code point 123. -/
def openBrace : Char := Char.ofNat 123

/-- Closing curly brace, code point 125. -/
def closeBrace : Char := Char.ofNat 125

/-- Regex class `[A-Za-z]`. -/
def isAsciiLetter (c : Char) : Bool :=
  (65 ≤ c.toNat && c.toNat ≤ 90) || (97 ≤ c.toNat && c.toNat ≤ 122)

/-- Regex class `\d`, i.e. `[0-9]` (no unicode flag on the source regexes). -/
def isAsciiDigit (c : Char) : Bool :=
  48 ≤ c.toNat && c.toNat ≤ 57

/-- The JavaScript `\s` class: the characters treated as whitespace by
`\S` complements in the URL pattern. -/
def jsWhitespace (c : Char) : Bool :=
  let n := c.toNat
  n == 9 || n == 10 || n == 11 || n == 12 || n == 13 || n == 32 || n == 160 ||
  n == 5760 || (8192 ≤ n && n ≤ 8202) || n == 8232 || n == 8233 ||
  n == 8239 || n == 8287 || n == 12288 || n == 65279

/-- The JavaScript `.` class (without the `s` flag): everything except the
line terminators LF, CR, LINE SEPARATOR and PARAGRAPH SEPARATOR. -/
def dotChar (c : Char) : Bool :=
  !(c.toNat == 10 || c.toNat == 13 || c.toNat == 8232 || c.toNat == 8233)

/-- ASCII lowering, the effect of the `i` flag on the ASCII letters of the
image-extension alternatives. -/
def toLowerChar (c : Char) : Char :=
  if 65 ≤ c.toNat && c.toNat ≤ 90 then Char.ofNat (c.toNat + 32) else c

/-! ## Generic matcher machinery

A `Matcher` models one global (`g`-flag) regex: applied to a text it returns
the list of matched spans as `(startOffset, length)` pairs.  `matcherOf`
builds one from a `matchAt` function that decides whether the regex matches
at the head of a given suffix and with which length. -/

abbrev Matcher := List Char → List (Nat × Nat)

/-- Number of leading characters of `s` satisfying `p` (a greedy character
class repetition). -/
def countWhile (p : Char → Bool) : List Char → Nat
  | [] => 0
  | c :: rest => if p c then countWhile p rest + 1 else 0

/-- Global scan: try `matchAtFn` at each position left to right; after a
match of length `len`, resume at its end (JS `lastIndex` semantics).  `fuel`
only serves termination; `scanMatches` supplies `s.length`, which is enough
because every step consumes at least one character. -/
def scanAux (matchAtFn : List Char → Option Nat) :
    Nat → List Char → Nat → List (Nat × Nat)
  | 0, _, _ => []
  | fuel + 1, s, pos =>
    match s with
    | [] => []
    | _ :: rest =>
      match matchAtFn s with
      | some len =>
          (pos, len) :: scanAux matchAtFn fuel (s.drop (max len 1)) (pos + max len 1)
      | none => scanAux matchAtFn fuel rest (pos + 1)

/-- All (disjoint, left-to-right) matches of the regex described by
`matchAtFn` in `s`. -/
def scanMatches (matchAtFn : List Char → Option Nat) (s : List Char) :
    List (Nat × Nat) :=
  scanAux matchAtFn s.length s 0

/-- Package a `matchAt` function as a `Matcher`. -/
def matcherOf (matchAtFn : List Char → Option Nat) : Matcher :=
  fun s => scanMatches matchAtFn s

/-- Is offset `i` inside one of the spans? -/
def coveredBy (spans : List (Nat × Nat)) (i : Nat) : Bool :=
  spans.any (fun pr => pr.1 ≤ i && i < pr.1 + pr.2)

/-- Replace every character whose absolute offset (starting at `k`) lies in
one of the spans by a space. -/
def blankFrom (spans : List (Nat × Nat)) : Nat → List Char → List Char
  | _, [] => []
  | k, c :: rest => (if coveredBy spans k then ' ' else c) :: blankFrom spans (k + 1) rest

/-- `replaceWithSpaces` of `textProcessing.ts`:
`input.replace(regex, (match) => ' '.repeat(match.length))` — every matched
span is overwritten character-for-character with spaces. -/
def replaceWithSpaces (input : List Char) (regex : Matcher) : List Char :=
  blankFrom (regex input) 0 input

/-! ## The nine built-in removal patterns of `DEFAULT_REMOVAL_PATTERNS` -/

/-- The literal `---`. -/
def hyphens3 : List Char := ['-', '-', '-']

/-- The literal `...`. -/
def dots3 : List Char := ['.', '.', '.']

/-- Three backticks. -/
def backticks3 : List Char := [backquote, backquote, backquote]

/-- Tail of the front-matter pattern after the opening `---`: the lazy
`[\s\S]*?` followed by a newline and a closing `...` or `---`; laziness
means the first position where the closing part fits wins. -/
def frontMatterTail : List Char → Option Nat
  | [] => none
  | c :: rest =>
    if c = '\n' && (List.isPrefixOf dots3 rest || List.isPrefixOf hyphens3 rest) then
      some 4
    else
      (frontMatterTail rest).map (fun n => n + 1)

/-- Pattern 1, front matter (regex written with D for the hyphen):
DDD[\s\S]*?\n(...|DDD) with lazy body. -/
def frontMatterMatchAt (s : List Char) : Option Nat :=
  if List.isPrefixOf hyphens3 s then
    (frontMatterTail (s.drop 3)).map (fun n => n + 3)
  else none

/-- Pattern 2: the literal `&nbsp;`. -/
def nbspMatchAt (s : List Char) : Option Nat :=
  if List.isPrefixOf ("&nbsp;".toList) s then some 6 else none

/-- Class `[A-Za-z:0-9-]` of the citation pattern. -/
def citationClass (c : Char) : Bool :=
  isAsciiLetter c || c == ':' || isAsciiDigit c || c == '-'

/-- Pattern 3, Pandoc citations: literally an opening bracket, an optional
hyphen, an at sign, a (possibly empty) run of `citationClass` characters and
a closing bracket. -/
def citationMatchAt (s : List Char) : Option Nat :=
  match s with
  | '[' :: rest =>
    let hyphenLen := match rest with
      | '-' :: _ => 1
      | _ => 0
    match rest.drop hyphenLen with
    | '@' :: r =>
      let k := countWhile citationClass r
      if (r.drop k).head? = some ']' then some (1 + hyphenLen + 1 + k + 1) else none
    | _ => none
  | _ => none

/-- Class `[A-Za-z:0-9]` of the attribute pattern. -/
def attrClass (c : Char) : Bool :=
  isAsciiLetter c || c == ':' || isAsciiDigit c

/-- Pattern 4, attribute blocks: an opening brace, `#` or `.`, a nonempty
run of `attrClass` characters and a closing brace. -/
def attributeMatchAt (s : List Char) : Option Nat :=
  match s with
  | b :: m :: rest =>
    if b = openBrace && (m = '#' || m = '.') then
      let k := countWhile attrClass rest
      if 1 ≤ k && (rest.drop k).head? = some closeBrace then some (2 + k + 1) else none
    else none
  | _ => none

/-- Tail of the fenced-code pattern after the opening three backticks: the
lazy `[\s\S]*?` followed by three closing backticks (first fit wins). -/
def fenceTail (s : List Char) : Option Nat :=
  match s with
  | [] => none
  | _ :: rest =>
    if List.isPrefixOf backticks3 s then some 3
    else (fenceTail rest).map (fun n => n + 1)

/-- Pattern 5, fenced code blocks: three backticks, lazy body, three
backticks. -/
def fencedCodeMatchAt (s : List Char) : Option Nat :=
  if List.isPrefixOf backticks3 s then
    (fenceTail (s.drop 3)).map (fun n => n + 3)
  else none

/-- Pattern 6, inline code: a backtick, a nonempty run of non-backtick
characters, a backtick.  The greedy run necessarily stops right before the
next backtick, which then closes the span. -/
def inlineCodeMatchAt (s : List Char) : Option Nat :=
  match s with
  | c :: rest =>
    if c = backquote then
      let k := countWhile (fun x => !(x == backquote)) rest
      if 1 ≤ k && (rest.drop k).head? = some backquote then some (k + 2) else none
    else none
  | [] => none

/-- Case-insensitive comparison of a lowercase extension literal against a
prefix of `s`. -/
def lowerPrefixOf : List Char → List Char → Bool
  | [], _ => true
  | _ :: _, [] => false
  | p :: ps, c :: cs => (toLowerChar c == p) && lowerPrefixOf ps cs

/-- One alternative `ext` of the image pattern followed by the closing
parenthesis; returns the consumed length. -/
def tryExtParen (ext : List Char) (s : List Char) : Option Nat :=
  if lowerPrefixOf ext s && (s.drop ext.length).head? = some ')' then
    some (ext.length + 1)
  else none

/-- The ordered alternation `(jpg|jpeg|png|md|gif|pdf|svg)` (case
insensitive) followed by `)`. -/
def extParen (s : List Char) : Option Nat :=
  tryExtParen ("jpg".toList) s <|> tryExtParen ("jpeg".toList) s <|>
  tryExtParen ("png".toList) s <|> tryExtParen ("md".toList) s <|>
  tryExtParen ("gif".toList) s <|> tryExtParen ("pdf".toList) s <|>
  tryExtParen ("svg".toList) s

/-- Tail of the image pattern after the opening parenthesis: the greedy
`.*` (no line terminators) followed by a literal dot, an extension and the
closing parenthesis; greediness prefers the longest `.*`, i.e. the deepest
position where the dot-extension-parenthesis part fits. -/
def imageTail : List Char → Option Nat
  | [] => none
  | c :: rest =>
    if dotChar c then
      match imageTail rest with
      | some n => some (n + 1)
      | none => if c = '.' then (extParen rest).map (fun n => n + 1) else none
    else none

/-- Pattern 7, image/file links: an opening parenthesis, greedy `.*`, a dot,
one of the file extensions (case insensitive), a closing parenthesis. -/
def imageLinkMatchAt (s : List Char) : Option Nat :=
  match s with
  | '(' :: rest => (imageTail rest).map (fun n => n + 1)
  | _ => none

/-- Pattern 8, URLs: `(http|https|ftp|git)\S*`.  The ordered alternation
tries `http` first, which subsumes `https` because the greedy `\S*` then
consumes the `s`. -/
def urlMatchAt (s : List Char) : Option Nat :=
  let go : List Char → Option Nat := fun p =>
    if List.isPrefixOf p s then
      some (p.length + countWhile (fun c => !(jsWhitespace c)) (s.drop p.length))
    else none
  go ("http".toList) <|> go ("ftp".toList) <|> go ("git".toList)

/-- Class `[a-zA-Z.\-0-9]` of the email local part. -/
def emailLocalChar (c : Char) : Bool :=
  isAsciiLetter c || c == '.' || c == '-' || isAsciiDigit c

/-- Class `[a-z.]` of the email domain part. -/
def emailDomainChar (c : Char) : Bool :=
  (97 ≤ c.toNat && c.toNat ≤ 122) || c == '.'

/-- Pattern 9, email addresses: a nonempty local-part run, an at sign, a
nonempty domain run.  Both runs are greedy and their classes exclude the at
sign, so backtracking never helps and maximal runs are faithful. -/
def emailMatchAt (s : List Char) : Option Nat :=
  let k := countWhile emailLocalChar s
  if 1 ≤ k then
    match s.drop k with
    | '@' :: r =>
      let d := countWhile emailDomainChar r
      if 1 ≤ d then some (k + 1 + d) else none
    | _ => none
  else none

/-- `DEFAULT_REMOVAL_PATTERNS` of `textProcessing.ts`, in source order. -/
def DEFAULT_REMOVAL_PATTERNS : List Matcher :=
  [matcherOf frontMatterMatchAt,
   matcherOf nbspMatchAt,
   matcherOf citationMatchAt,
   matcherOf attributeMatchAt,
   matcherOf fencedCodeMatchAt,
   matcherOf inlineCodeMatchAt,
   matcherOf imageLinkMatchAt,
   matcherOf urlMatchAt,
   matcherOf emailMatchAt]

/-! ## The sanitizer -/

/-- `SanitizeOptions` of `textProcessing.ts`; `none` plays the role of an
absent property (the `??` defaults of the source). -/
structure SanitizeOptions where
  removalPatterns : Option (List Matcher)
  userPatterns : Option (List Matcher)

/-- The final pass `processed.replace(/\t/g, ' ')`. -/
def tabToSpace (c : Char) : Char :=
  if c = '\t' then ' ' else c

/-- `sanitizeText` of `textProcessing.ts`: chain the removal patterns (the
built-ins by default), then the user patterns, each one blanking its matches
in the text produced by the previous one, then convert tabs to spaces. -/
def sanitizeText (text : List Char) (options : SanitizeOptions) : List Char :=
  ((options.userPatterns.getD []).foldl replaceWithSpaces
    ((options.removalPatterns.getD DEFAULT_REMOVAL_PATTERNS).foldl
      replaceWithSpaces text)).map tabToSpace

/-- Sanitize with the built-in patterns only (the call
`sanitizeText(text, {})`). -/
def builtinOnlyOptions : SanitizeOptions := ⟨none, none⟩

/-- Offset `i` lies inside a matched span of some pattern of the chain,
each pattern being matched against the text as blanked by its predecessors
(the chaining of `sanitizeText`). -/
def chainCovered : List Matcher → List Char → Nat → Bool
  | [], _, _ => false
  | regex :: ms, s, i =>
    coveredBy (regex s) i || chainCovered ms (replaceWithSpaces s regex) i

/-- Offset `i` is blanked at some stage of `sanitizeText text options`. -/
def sanitizeCovered (text : List Char) (options : SanitizeOptions) (i : Nat) : Bool :=
  chainCovered
    (options.removalPatterns.getD DEFAULT_REMOVAL_PATTERNS ++
      options.userPatterns.getD []) text i

/-- Does every built-in matcher come up empty on `s`?  (The stability
condition under which a second sanitization pass is the identity.) -/
def builtinMatchersSilent (s : List Char) : Bool :=
  DEFAULT_REMOVAL_PATTERNS.all (fun regex => regex s == ([] : List (Nat × Nat)))

/-! ## The tokenizer (word regex of `doSpellCheck`) -/

/-- Continuation class of the word regex: a letter or a straight or curly
apostrophe. -/
def wordTailChar (c : Char) : Bool :=
  isAsciiLetter c || c == apostropheChar || c == curlyApostrophe

/-- The word regex: one letter followed by three or more `wordTailChar`
characters (greedy). -/
def wordMatchAt : List Char → Option Nat
  | [] => none
  | c :: rest =>
    if isAsciiLetter c then
      let k := countWhile wordTailChar rest
      if 3 ≤ k then some (k + 1) else none
    else none

/-- A token as produced by `matchAll`: its index and its literal text. -/
structure Token where
  index : Nat
  text : List Char
deriving DecidableEq

/-- The substring of `s` from offset `a` (inclusive) to `b` (exclusive). -/
def sliceRange (s : List Char) (a b : Nat) : List Char :=
  (s.drop a).take (b - a)

/-- `sanitized.matchAll(wordRegex)` of `doSpellCheck`, as tokens. -/
def tokenize (s : List Char) : List Token :=
  (scanMatches wordMatchAt s).map (fun pr => ⟨pr.1, (s.drop pr.1).take pr.2⟩)

/-- `originalWord.replace(…curly apostrophe…, straight apostrophe)`. -/
def normalizeWord (w : List Char) : List Char :=
  w.map (fun c => if c == curlyApostrophe then apostropheChar else c)

/-- The test of the unreachable digit filter branch: `/\d/.test(word)`. -/
def containsDigit (w : List Char) : Bool :=
  w.any isAsciiDigit

/-- CRLF normalization `text.replace(/\r?\n/g, '\n')`: only the CR of a
CRLF pair is removed from the match, a lone LF is rewritten to itself. -/
def normalizeNewlines : List Char → List Char
  | [] => []
  | [c] => [c]
  | c1 :: c2 :: rest =>
    if c1 = '\r' && c2 = '\n' then '\n' :: normalizeNewlines rest
    else c1 :: normalizeNewlines (c2 :: rest)

/-- Does the text contain a CRLF pair (the only case in which the CRLF
normalization is not the identity)? -/
def hasCRLF : List Char → Bool
  | [] => false
  | [_] => false
  | c1 :: c2 :: rest => (c1 = '\r' && c2 = '\n') || hasCRLF (c2 :: rest)

/-! ## `SpellService` (`src/services/SpellService.ts`)

The hunspell backing checker and the dictionary file reads are external
collaborators: the outcome of `readFile` + `parse` + `use` is passed in as
an `Except` value, and the loaded dictionary's `check`/`suggest` behaviour
as plain functions. -/

/-- The dictionary codes of `SpellService.ts` (hyphens spelt as
underscores). -/
inductive DictionaryCode where
  | en_US
  | en_GB_ize
  | en_GB_ise
  | es_ANY
  | fr
  | el_GR
  | sv_SE
deriving DecidableEq

/-- The wire spelling of a dictionary code, for error messages. -/
def DictionaryCode.code : DictionaryCode → String
  | .en_US => "en_US"
  | .en_GB_ize => "en_GB-ize"
  | .en_GB_ise => "en_GB-ise"
  | .es_ANY => "es_ANY"
  | .fr => "fr"
  | .el_GR => "el_GR"
  | .sv_SE => "sv_SE"

/-- The mutable state of a `SpellService`: `loadedLanguage` is set only at
the end of a fully successful `load`. -/
structure SpellServiceState where
  loadedLanguage : Option DictionaryCode
deriving DecidableEq

/-- `SpellService.load`: read both dictionary files and parse them (the
combined external outcome is `readResult`); only on success is
`loadedLanguage` assigned.  A failure propagates and leaves the state as it
was (the caller keeps its old `SpellServiceState`). -/
def SpellService.load (state : SpellServiceState) (language : DictionaryCode)
    (readResult : Except String Unit) : Except String SpellServiceState :=
  match state, readResult with
  | _, Except.error e => Except.error e
  | _, Except.ok _ => Except.ok ⟨some language⟩

/-- `SpellService.isReady`: `Boolean(this.loadedLanguage)`. -/
def SpellService.isReady (state : SpellServiceState) : Bool :=
  state.loadedLanguage.isSome

/-- `SpellService.getLanguage`. -/
def SpellService.getLanguage (state : SpellServiceState) : Option DictionaryCode :=
  state.loadedLanguage

/-- The message thrown by `assertReady`. -/
def notLoadedMessage : String := "SpellService is not loaded with a dictionary."

/-- `SpellService.assertReady`: throws when no dictionary has been loaded. -/
def SpellService.assertReady (state : SpellServiceState) : Except String Unit :=
  match state.loadedLanguage with
  | none => Except.error notLoadedMessage
  | some _ => Except.ok ()

/-- `SpellService.check`: assert readiness, then ask the backing checker
(`oracle` models `this.spellChecker.check`). -/
def SpellService.check (state : SpellServiceState) (oracle : List Char → Bool)
    (word : List Char) : Except String Bool :=
  match SpellService.assertReady state with
  | Except.error e => Except.error e
  | Except.ok _ => Except.ok (oracle word)

/-- `SpellService.suggest`: assert readiness, call the backing suggester
(which may throw, modelled by `Except.error`, or return a nullish value,
modelled by `none`), default to the empty list and cap at `limit`
(`suggestions.slice(0, limit)`). -/
def SpellService.suggest (state : SpellServiceState)
    (backing : Except String (Option (List (List Char)))) (limit : Nat) :
    Except String (List (List Char)) :=
  match SpellService.assertReady state with
  | Except.error e => Except.error e
  | Except.ok _ =>
    match backing with
    | Except.error e => Except.error e
    | Except.ok res => Except.ok ((res.getD []).take limit)

/-! ## Provider settings, documents and the check pass
(`src/features/SpellCheckerProvider.ts`) -/

/-- The settings fields consumed by the modelled code paths
(`suggestionSeverity` only selects a presentation enum and is omitted;
`ignoreRegExp` is carried as raw strings, its compiled form enters
`doSpellCheck` as the `userPatterns` argument, since `new RegExp` is a host
facility). -/
structure SpellSettings where
  language : DictionaryCode
  ignoreWordsList : List (List Char)
  documentTypes : List (List Char)
  ignoreRegExp : List String
  ignoreFileExtensions : List (List Char)
  ignoreFilenames : List (List Char)
  checkInterval : Int
  autoCheck : Bool
  maxDiagnostics : Int
  suggestionLimit : Nat

/-- What `shouldCheck` reads off a `vscode.TextDocument`: the uri scheme,
the language id, and `path.extname`/`path.basename` of the file name
(the path functions are host collaborators, so their results are fields). -/
structure DocumentInfo where
  scheme : List Char
  languageId : List Char
  extname : List Char
  basename : List Char

/-- `shouldCheck`: ready dictionary, `file` scheme, enabled document type,
extension and file name not ignored. -/
def shouldCheck (service : SpellServiceState) (settings : SpellSettings)
    (doc : DocumentInfo) : Bool :=
  SpellService.isReady service &&
  doc.scheme == "file".toList &&
  settings.documentTypes.contains doc.languageId &&
  !(settings.ignoreFileExtensions.contains doc.extname) &&
  !(settings.ignoreFilenames.contains doc.basename)

/-- A diagnostic: the range `[startOffset, endOffset)` in the document and
the machine-readable `code` (the normalized flagged word). -/
structure Diagnostic where
  startOffset : Nat
  endOffset : Nat
  code : List Char
deriving DecidableEq

/-- Build the diagnostic of a rejected token: the range runs from
`match.index` to `match.index + originalWord.length` and the code is the
normalized word. -/
def mkDiagnostic (tok : Token) (normalizedWord : List Char) : Diagnostic :=
  ⟨tok.index, tok.index + tok.text.length, normalizedWord⟩

/-- The observable outcome of one check pass: the diagnostics list, the
final token counter and how many times the overflow status-bar notice was
raised. -/
structure CheckOutcome where
  diagnostics : List Diagnostic
  processedTokens : Nat
  overflowNotices : Nat
deriving DecidableEq

/-- The token loop of `doSpellCheck`.  Each token bumps the counter; tokens
containing a digit or present in the ignore list `continue` (skipping the
token-cap test at the bottom of the loop body); a token the oracle rejects
is pushed as a diagnostic, and reaching `maxDiagnostics` raises the notice
and breaks; otherwise the bottom token-cap test may break. -/
def checkTokens (maxDiagnostics : Int) (ignoreWordsList : List (List Char))
    (check : List Char → Bool) :
    List Token → List Diagnostic → Nat → Nat → CheckOutcome
  | [], diagnostics, processed, notices => ⟨diagnostics, processed, notices⟩
  | tok :: rest, diagnostics, processed, notices =>
    if containsDigit (normalizeWord tok.text) then
      checkTokens maxDiagnostics ignoreWordsList check rest diagnostics (processed + 1) notices
    else if ignoreWordsList.contains (normalizeWord tok.text) then
      checkTokens maxDiagnostics ignoreWordsList check rest diagnostics (processed + 1) notices
    else if check (normalizeWord tok.text) = false then
      if ((diagnostics ++ [mkDiagnostic tok (normalizeWord tok.text)]).length : Int) ≥ maxDiagnostics then
        ⟨diagnostics ++ [mkDiagnostic tok (normalizeWord tok.text)], processed + 1, notices + 1⟩
      else if ((processed + 1 : Nat) : Int) ≥ maxDiagnostics * 20 then
        ⟨diagnostics ++ [mkDiagnostic tok (normalizeWord tok.text)], processed + 1, notices⟩
      else
        checkTokens maxDiagnostics ignoreWordsList check rest
          (diagnostics ++ [mkDiagnostic tok (normalizeWord tok.text)]) (processed + 1) notices
    else
      if ((processed + 1 : Nat) : Int) ≥ maxDiagnostics * 20 then
        ⟨diagnostics, processed + 1, notices⟩
      else
        checkTokens maxDiagnostics ignoreWordsList check rest diagnostics (processed + 1) notices

/-- The text pipeline of `doSpellCheck` for a document that passed the
gating: CRLF normalization, sanitization with the built-in patterns plus
the user patterns, tokenization, then the token loop.  `check` models the
loaded dictionary's `spellChecker.check` and `userPatterns` the compiled
`ignoreRegExp` entries. -/
def doSpellCheckCore (settings : SpellSettings) (userPatterns : List Matcher)
    (check : List Char → Bool) (docText : List Char) : CheckOutcome :=
  checkTokens settings.maxDiagnostics settings.ignoreWordsList check
    (tokenize (sanitizeText (normalizeNewlines docText) ⟨none, some userPatterns⟩))
    [] 0 0

/-- A manual `spellchecker.checkDocument` invocation: `doSpellCheck` runs
unconditionally on the active document, gated only by `shouldCheck` (never
by `checkInterval` or the auto-check flag). -/
def manualCheckDocument (service : SpellServiceState) (settings : SpellSettings)
    (userPatterns : List Matcher) (check : List Char → Bool)
    (doc : DocumentInfo) (docText : List Char) : Option CheckOutcome :=
  if shouldCheck service settings doc = true then
    some (doSpellCheckCore settings userPatterns check docText)
  else none

/-! ## Dictionary loading in the provider -/

/-- The message of `loadDictionary`'s catch branch. -/
def loadErrorMessage (language : DictionaryCode) (e : String) : String :=
  "Failed to load dictionary " ++ language.code ++ ": " ++ e

/-- `loadDictionary` of the provider: try `SpellService.load`; on failure
show an error message and keep the old service state. -/
def loadDictionary (service : SpellServiceState) (language : DictionaryCode)
    (readResult : Except String Unit) : SpellServiceState × List String :=
  match SpellService.load service language readResult with
  | Except.error e => (service, [loadErrorMessage language e])
  | Except.ok newState => (newState, [])

/-! ## Suggestions and code actions -/

/-- `safeSuggest`: any failure of the oracle (including the readiness
precondition) degrades to no suggestions. -/
def safeSuggest (state : SpellServiceState)
    (backing : Except String (Option (List (List Char)))) (limit : Nat) :
    List (List Char) :=
  match SpellService.suggest state backing limit with
  | Except.error _ => []
  | Except.ok l => l

/-- The quick-fix actions of `provideCodeActions`. -/
inductive CodeAction where
  | replaceWith (suggestion : List Char) (isPreferred : Bool)
  | ignoreWord (word : List Char)
  | alwaysIgnoreWord (word : List Char)
deriving DecidableEq

/-- `provideCodeActions` for a diagnostic whose code is `word`: one Replace
action per suggestion (the first preferred), then the Ignore and the
Always-Ignore actions. -/
def provideCodeActions (state : SpellServiceState)
    (backing : Except String (Option (List (List Char)))) (limit : Nat)
    (word : List Char) : List CodeAction :=
  ((safeSuggest state backing limit).enum.map
    (fun pr => CodeAction.replaceWith pr.2 (pr.1 == 0))) ++
  [CodeAction.ignoreWord word, CodeAction.alwaysIgnoreWord word]

/-! ## The debounce scheduler -/

/-- What an event handler decides to do. -/
inductive ScheduleAction where
  | noAction
  | immediateCheck
  | armTimer (delay : Int)
deriving DecidableEq

/-- `onDocumentChanged`: skip undesired documents, skip when scheduled
checking is off (`checkInterval < 0` or auto-check disabled), check
immediately when the interval has elapsed since the last check, otherwise
re-arm the trailing timer for `2 * checkInterval`. -/
def onDocumentChanged (service : SpellServiceState) (settings : SpellSettings)
    (doc : DocumentInfo) (autoCheckEnabled : Bool) (now lastcheck : Int) :
    ScheduleAction :=
  if shouldCheck service settings doc = false then ScheduleAction.noAction
  else if settings.checkInterval < 0 ∨ autoCheckEnabled = false then ScheduleAction.noAction
  else if now - lastcheck > settings.checkInterval then ScheduleAction.immediateCheck
  else ScheduleAction.armTimer (2 * settings.checkInterval)

/-- `maybeAutoCheck` (open/save events): skip when scheduled checking is
off or the document is not checkable, else check immediately. -/
def maybeAutoCheck (service : SpellServiceState) (settings : SpellSettings)
    (doc : DocumentInfo) (autoCheckEnabled : Bool) : ScheduleAction :=
  if settings.checkInterval < 0 ∨ autoCheckEnabled = false then ScheduleAction.noAction
  else if shouldCheck service settings doc = false then ScheduleAction.noAction
  else ScheduleAction.immediateCheck

/-! ## Pointwise behaviour of the sanitizer -/

theorem blankFrom_getElem? (spans : List (Nat × Nat)) :
    ∀ (s : List Char) (k i : Nat),
      (blankFrom spans k s)[i]? =
        s[i]?.map (fun c => if coveredBy spans (k + i) then ' ' else c) := by
  intro s
  induction s with
  | nil => intro k i; simp [blankFrom]
  | cons c rest ih =>
    intro k i
    cases i with
    | zero => simp [blankFrom]
    | succ j =>
      have hkj : k + 1 + j = k + (j + 1) := by omega
      simp [blankFrom, ih (k + 1) j, hkj]

theorem blankFrom_length (spans : List (Nat × Nat)) :
    ∀ (s : List Char) (k : Nat), (blankFrom spans k s).length = s.length := by
  intro s
  induction s with
  | nil => intro k; simp [blankFrom]
  | cons c rest ih => intro k; simp [blankFrom, ih]

theorem replaceWithSpaces_getElem? (s : List Char) (regex : Matcher) (i : Nat) :
    (replaceWithSpaces s regex)[i]? =
      s[i]?.map (fun c => if coveredBy (regex s) i then ' ' else c) := by
  have h := blankFrom_getElem? (regex s) s 0 i
  simpa [replaceWithSpaces] using h

theorem replaceWithSpaces_length (s : List Char) (regex : Matcher) :
    (replaceWithSpaces s regex).length = s.length := by
  simp [replaceWithSpaces, blankFrom_length]

theorem ite_or_blank (a b : Bool) (c : Char) :
    (if b then ' ' else if a then ' ' else c) = (if (a || b) then ' ' else c) := by
  cases a <;> cases b <;> simp

theorem foldl_replaceWithSpaces_getElem? :
    ∀ (ms : List Matcher) (s : List Char) (i : Nat),
      (ms.foldl replaceWithSpaces s)[i]? =
        s[i]?.map (fun c => if chainCovered ms s i then ' ' else c) := by
  intro ms
  induction ms with
  | nil =>
    intro s i
    simp [chainCovered]
  | cons regex ms ih =>
    intro s i
    rw [List.foldl_cons, ih (replaceWithSpaces s regex) i,
      replaceWithSpaces_getElem? s regex i]
    cases h : s[i]? with
    | none => simp
    | some c =>
      simp only [Option.map_some', chainCovered]
      rw [ite_or_blank]

theorem foldl_replaceWithSpaces_length :
    ∀ (ms : List Matcher) (s : List Char),
      (ms.foldl replaceWithSpaces s).length = s.length := by
  intro ms
  induction ms with
  | nil => intro s; rfl
  | cons regex ms ih =>
    intro s
    rw [List.foldl_cons, ih (replaceWithSpaces s regex), replaceWithSpaces_length]

/-- Pointwise description of `sanitizeText`: the length is preserved, an
offset inside some matched span of the chain holds a space, and any other
offset holds the original character except that a tab becomes a space. -/
theorem sanitize_pointwise (text : List Char) (options : SanitizeOptions) :
    (sanitizeText text options).length = text.length ∧
    ∀ i : Nat, (sanitizeText text options)[i]? =
      text[i]?.map
        (fun c => if sanitizeCovered text options i then ' ' else tabToSpace c) := by
  constructor
  · simp [sanitizeText, foldl_replaceWithSpaces_length]
  · intro i
    unfold sanitizeText sanitizeCovered
    rw [← List.foldl_append, List.getElem?_map, foldl_replaceWithSpaces_getElem?]
    cases h : text[i]? with
    | none => simp
    | some c =>
      simp only [Option.map_some']
      cases hcov :
          chainCovered
            (options.removalPatterns.getD DEFAULT_REMOVAL_PATTERNS ++
              options.userPatterns.getD []) text i with
      | false => simp
      | true => simp [tabToSpace]

/-- A character of the sanitized text that is not a space comes unchanged
from the same offset of the input text. -/
theorem sanitized_nonspace_char (text : List Char) (options : SanitizeOptions)
    (i : Nat) (c : Char) (h : (sanitizeText text options)[i]? = some c)
    (hc : c ≠ ' ') : text[i]? = some c := by
  have hpt := (sanitize_pointwise text options).2 i
  rw [h] at hpt
  cases ht : text[i]? with
  | none => rw [ht] at hpt; simp at hpt
  | some c0 =>
    rw [ht] at hpt
    simp only [Option.map_some'] at hpt
    injection hpt with hval
    by_cases hcov : sanitizeCovered text options i
    · rw [if_pos hcov] at hval; exact absurd hval hc
    · rw [if_neg hcov] at hval
      unfold tabToSpace at hval
      by_cases htab : c0 = '\t'
      · rw [if_pos htab] at hval; exact absurd hval hc
      · rw [if_neg htab] at hval; rw [hval]

/-! ## What the tokenizer produces -/

theorem countWhile_le_length (p : Char → Bool) :
    ∀ s : List Char, countWhile p s ≤ s.length := by
  intro s
  induction s with
  | nil => simp [countWhile]
  | cons c rest ih =>
    by_cases hp : p c
    · simp [countWhile, hp]; omega
    · simp [countWhile, hp]

theorem countWhile_spec (p : Char → Bool) :
    ∀ (s : List Char) (j : Nat), j < countWhile p s →
      ∃ c, s[j]? = some c ∧ p c = true := by
  intro s
  induction s with
  | nil => intro j hj; simp [countWhile] at hj
  | cons c rest ih =>
    intro j hj
    by_cases hp : p c
    · rw [countWhile, if_pos hp] at hj
      cases j with
      | zero => exact ⟨c, by simp, hp⟩
      | succ j' =>
        obtain ⟨c', hc', hpc'⟩ := ih j' (by omega)
        exact ⟨c', by simpa using hc', hpc'⟩
    · rw [countWhile, if_neg hp] at hj; omega

theorem wordMatchAt_spec (s : List Char) (len : Nat)
    (h : wordMatchAt s = some len) :
    4 ≤ len ∧ len ≤ s.length ∧
    ∀ j, j < len → ∃ c, s[j]? = some c ∧ wordTailChar c = true := by
  cases s with
  | nil => simp [wordMatchAt] at h
  | cons c rest =>
    rw [wordMatchAt] at h
    by_cases hl : isAsciiLetter c
    · rw [if_pos hl] at h
      by_cases hk : 3 ≤ countWhile wordTailChar rest
      · rw [if_pos hk] at h
        injection h with hlen
        have hle := countWhile_le_length wordTailChar rest
        refine ⟨by omega, by simp; omega, ?_⟩
        intro j hj
        cases j with
        | zero => exact ⟨c, by simp, by simp [wordTailChar, hl]⟩
        | succ j' =>
          obtain ⟨c', hc', hwc'⟩ := countWhile_spec wordTailChar rest j' (by omega)
          exact ⟨c', by simpa using hc', hwc'⟩
      · rw [if_neg hk] at h; exact absurd h (by simp)
    · rw [if_neg hl] at h; exact absurd h (by simp)

theorem scanAux_spec (f : List Char → Option Nat) (full : List Char) :
    ∀ (fuel pos : Nat) (s : List Char), s = full.drop pos →
      ∀ pr ∈ scanAux f fuel s pos, f (full.drop pr.1) = some pr.2 := by
  intro fuel
  induction fuel with
  | zero => intro pos s _ pr hpr; simp [scanAux] at hpr
  | succ fuel ih =>
    intro pos s hs pr hpr
    cases s with
    | nil => simp [scanAux] at hpr
    | cons c rest =>
      rw [scanAux] at hpr
      cases hf : f (c :: rest) with
      | some len =>
        rw [hf] at hpr
        rcases List.mem_cons.mp hpr with hhead | htail
        · subst hhead
          rw [← hs]; exact hf
        · have hdrop : (c :: rest).drop (max len 1) = full.drop (pos + max len 1) := by
            rw [hs, List.drop_drop, Nat.add_comm]
          exact ih (pos + max len 1) ((c :: rest).drop (max len 1)) hdrop pr htail
      | none =>
        rw [hf] at hpr
        have hdrop : rest = full.drop (pos + 1) := by
          have h2 := List.tail_drop full pos
          rw [← hs] at h2
          simpa using h2
        exact ih (pos + 1) rest hdrop pr hpr

theorem scanMatches_spec (f : List Char → Option Nat) (s : List Char) :
    ∀ pr ∈ scanMatches f s, f (s.drop pr.1) = some pr.2 := by
  intro pr hpr
  exact scanAux_spec f s s.length 0 s (by simp) pr hpr

/-- Every token of `tokenize s` is the literal substring of `s` at its
index, has length at least 4, agrees with `s` character by character on its
span, and consists only of letters and apostrophes. -/
theorem tokenize_spec (s : List Char) :
    ∀ tok ∈ tokenize s,
      tok.text = (s.drop tok.index).take tok.text.length ∧
      4 ≤ tok.text.length ∧
      (∀ j, j < tok.text.length → s[tok.index + j]? = tok.text[j]?) ∧
      (∀ c ∈ tok.text, wordTailChar c = true) := by
  intro tok htok
  obtain ⟨pr, hpr, htokeq⟩ := List.mem_map.mp htok
  have hm : wordMatchAt (s.drop pr.1) = some pr.2 := scanMatches_spec wordMatchAt s pr hpr
  obtain ⟨h4, hle, hchars⟩ := wordMatchAt_spec (s.drop pr.1) pr.2 hm
  have hidx : tok.index = pr.1 := by rw [← htokeq]
  have htext : tok.text = (s.drop pr.1).take pr.2 := by rw [← htokeq]
  have hlen : tok.text.length = pr.2 := by
    rw [htext, List.length_take]; omega
  have hpoint : ∀ j, j < tok.text.length → s[tok.index + j]? = tok.text[j]? := by
    intro j hj
    rw [hlen] at hj
    rw [htext, List.getElem?_take_of_lt hj, List.getElem?_drop, hidx]
  refine ⟨by rw [hidx, hlen]; exact htext, by omega, hpoint, ?_⟩
  intro c hc
  obtain ⟨j, hj⟩ := List.mem_iff_getElem?.mp hc
  have hjlt : j < tok.text.length := by
    by_contra hge
    rw [List.getElem?_eq_none (by omega)] at hj
    exact Option.noConfusion hj
  have hsj : s[tok.index + j]? = some c := by rw [hpoint j hjlt, hj]
  obtain ⟨c', hc', hwc'⟩ := hchars j (by omega)
  rw [List.getElem?_drop, ← hidx] at hc'
  rw [hsj] at hc'
  injection hc' with hcc
  rw [← hcc] at hwc'
  exact hwc'

/-! ## Word characters contain no digits -/

theorem wordTail_not_digit (c : Char) (h : wordTailChar c = true) :
    isAsciiDigit c = false := by
  by_cases ha : c = apostropheChar
  · subst ha; decide
  · by_cases hcu : c = curlyApostrophe
    · subst hcu; decide
    · have hl : isAsciiLetter c = true := by
        unfold wordTailChar at h
        rw [beq_eq_false_iff_ne.mpr ha, beq_eq_false_iff_ne.mpr hcu] at h
        simpa using h
      simp only [isAsciiLetter, Bool.or_eq_true, Bool.and_eq_true,
        decide_eq_true_eq] at hl
      simp only [isAsciiDigit, Bool.and_eq_false_iff, decide_eq_false_iff_not]
      omega

theorem normalizeWord_digit_free (w : List Char)
    (h : ∀ c ∈ w, wordTailChar c = true) :
    containsDigit (normalizeWord w) = false := by
  unfold containsDigit normalizeWord
  rw [List.any_eq_false]
  intro x hx
  obtain ⟨c, hc, hxc⟩ := List.mem_map.mp hx
  rw [← hxc]
  by_cases hcur : (c == curlyApostrophe) = true
  · rw [if_pos hcur]; decide
  · rw [if_neg hcur]
    simp [wordTail_not_digit c (h c hc)]

theorem tokenize_digit_free (s : List Char) (tok : Token) (htok : tok ∈ tokenize s) :
    containsDigit (normalizeWord tok.text) = false :=
  normalizeWord_digit_free tok.text ((tokenize_spec s tok htok).2.2.2)

/-- A word character is neither a space nor a tab. -/
theorem wordTail_ne_space (c : Char) (h : wordTailChar c = true) :
    c ≠ ' ' := by
  intro hsp
  subst hsp
  exact absurd h (by decide)

/-! ## CRLF normalization -/

theorem normalizeNewlines_eq_self :
    ∀ t : List Char, hasCRLF t = false → normalizeNewlines t = t := by
  intro t
  induction t with
  | nil => intro _; rfl
  | cons c rest ih =>
    intro h
    cases rest with
    | nil => rfl
    | cons c2 rest2 =>
      rw [hasCRLF, Bool.or_eq_false_iff] at h
      rw [normalizeNewlines, if_neg (by simp [h.1] : ¬ _), ih h.2]

/-! ## Invariants of the token loop -/

theorem checkTokens_diag_source (m : Int) (ig : List (List Char))
    (ch : List Char → Bool) :
    ∀ (toks : List Token) (diags : List Diagnostic) (p n : Nat)
      (d : Diagnostic),
      d ∈ (checkTokens m ig ch toks diags p n).diagnostics →
      d ∈ diags ∨ ∃ tok ∈ toks, d = mkDiagnostic tok (normalizeWord tok.text) := by
  intro toks
  induction toks with
  | nil =>
    intro diags p n d hd
    exact Or.inl (by simpa [checkTokens] using hd)
  | cons tok rest ih =>
    intro diags p n d hd
    have hstep :
        ∀ diags' p' n', d ∈ (checkTokens m ig ch rest diags' p' n').diagnostics →
          d ∈ diags' ∨ ∃ t ∈ tok :: rest, d = mkDiagnostic t (normalizeWord t.text) := by
      intro diags' p' n' hmem
      rcases ih diags' p' n' d hmem with h | ⟨t, ht, he⟩
      · exact Or.inl h
      · exact Or.inr ⟨t, List.mem_cons_of_mem _ ht, he⟩
    have hpush :
        d ∈ diags ++ [mkDiagnostic tok (normalizeWord tok.text)] →
          d ∈ diags ∨ ∃ t ∈ tok :: rest, d = mkDiagnostic t (normalizeWord t.text) := by
      intro hmem
      rcases List.mem_append.mp hmem with h | h
      · exact Or.inl h
      · exact Or.inr ⟨tok, List.mem_cons_self tok rest, List.mem_singleton.mp h⟩
    rw [checkTokens] at hd
    split at hd
    · exact hstep _ _ _ hd
    · split at hd
      · exact hstep _ _ _ hd
      · split at hd
        · split at hd
          · exact hpush hd
          · split at hd
            · exact hpush hd
            · rcases hstep _ _ _ hd with h | h
              · exact hpush h
              · exact Or.inr h
        · split at hd
          · exact Or.inl hd
          · exact hstep _ _ _ hd

theorem checkTokens_respects_ignore (m : Int) (ig : List (List Char))
    (ch : List Char → Bool) :
    ∀ (toks : List Token) (diags : List Diagnostic) (p n : Nat),
      (∀ d ∈ diags, ig.contains d.code = false) →
      ∀ d ∈ (checkTokens m ig ch toks diags p n).diagnostics,
        ig.contains d.code = false := by
  intro toks
  induction toks with
  | nil =>
    intro diags p n hinv d hd
    exact hinv d (by simpa [checkTokens] using hd)
  | cons tok rest ih =>
    intro diags p n hinv d hd
    rw [checkTokens] at hd
    split at hd
    · exact ih _ _ _ hinv d hd
    · split at hd
      · exact ih _ _ _ hinv d hd
      next hig =>
        have hig' : ig.contains (normalizeWord tok.text) = false :=
          Bool.not_eq_true _ ▸ eq_false_of_ne_true hig
        have hinv' :
            ∀ d' ∈ diags ++ [mkDiagnostic tok (normalizeWord tok.text)],
              ig.contains d'.code = false := by
          intro d' hd'
          rcases List.mem_append.mp hd' with h | h
          · exact hinv d' h
          · rw [List.mem_singleton.mp h]; exact hig'
        split at hd
        · split at hd
          · exact hinv' d hd
          · split at hd
            · exact hinv' d hd
            · exact ih _ _ _ hinv' d hd
        · split at hd
          · exact hinv d hd
          · exact ih _ _ _ hinv d hd

theorem checkTokens_diag_bound (m : Int) (ig : List (List Char))
    (ch : List Char → Bool) :
    ∀ (toks : List Token) (diags : List Diagnostic) (p n : Nat),
      ((diags.length : Int) < m) →
      (((checkTokens m ig ch toks diags p n).diagnostics.length : Int)) ≤ m := by
  intro toks
  induction toks with
  | nil =>
    intro diags p n hlt
    simp only [checkTokens]
    omega
  | cons tok rest ih =>
    intro diags p n hlt
    rw [checkTokens]
    split
    · exact ih _ _ _ hlt
    split
    · exact ih _ _ _ hlt
    split
    · split
      · simp only [List.length_append, List.length_cons, List.length_nil]
        push_cast
        omega
      next hnotfull =>
        split
        · simp only [List.length_append, List.length_cons, List.length_nil]
          push_cast
          omega
        · refine ih _ _ _ ?_
          have h2 := hnotfull
          simp only [List.length_append, List.length_cons, List.length_nil, not_le] at h2
          push_cast at h2 ⊢
          omega
    · split
      · exact le_of_lt hlt
      · exact ih _ _ _ hlt

theorem checkTokens_notice_bound (m : Int) (ig : List (List Char))
    (ch : List Char → Bool) :
    ∀ (toks : List Token) (diags : List Diagnostic) (p n : Nat),
      (checkTokens m ig ch toks diags p n).overflowNotices ≤ n + 1 := by
  intro toks
  induction toks with
  | nil => intro diags p n; simp [checkTokens]
  | cons tok rest ih =>
    intro diags p n
    rw [checkTokens]
    split
    · exact ih _ _ _
    split
    · exact ih _ _ _
    split
    · split
      · simp
      · split
        · simp
        · exact ih _ _ _
    · split
      · simp
      · exact ih _ _ _

theorem checkTokens_token_cap (m : Int) (ch : List Char → Bool) :
    ∀ (toks : List Token) (diags : List Diagnostic) (p n : Nat),
      (∀ tok ∈ toks, containsDigit (normalizeWord tok.text) = false) →
      ((p : Int) < m * 20) →
      (((checkTokens m [] ch toks diags p n).processedTokens : Int)) ≤ m * 20 := by
  intro toks
  induction toks with
  | nil =>
    intro diags p n _ hp
    simp only [checkTokens]
    omega
  | cons tok rest ih =>
    intro diags p n hdf hp
    rw [checkTokens]
    split
    next hdig =>
      exact absurd hdig (by simp [hdf tok (List.mem_cons_self tok rest)])
    split
    next hig => simp at hig
    split
    · split
      · push_cast
        omega
      · split
        · push_cast
          omega
        next hncap =>
          refine ih _ _ _ (fun t ht => hdf t (List.mem_cons_of_mem _ ht)) ?_
          push_cast at hncap ⊢
          omega
    · split
      · push_cast
        omega
      next hncap =>
        refine ih _ _ _ (fun t ht => hdf t (List.mem_cons_of_mem _ ht)) ?_
        push_cast at hncap ⊢
        omega

/-! ## Stability of the sanitizer on match-free text -/

theorem blankFrom_nil : ∀ (s : List Char) (k : Nat), blankFrom [] k s = s := by
  intro s
  induction s with
  | nil => intro k; rfl
  | cons c rest ih => intro k; simp [blankFrom, coveredBy, ih]

theorem foldl_silent (ms : List Matcher) :
    ∀ s : List Char, (∀ regex ∈ ms, regex s = []) →
      ms.foldl replaceWithSpaces s = s := by
  induction ms with
  | nil => intro s _; rfl
  | cons regex ms ih =>
    intro s h
    rw [List.foldl_cons]
    have hr : replaceWithSpaces s regex = s := by
      rw [replaceWithSpaces, h regex (List.mem_cons_self regex ms), blankFrom_nil]
    rw [hr]
    exact ih s (fun r hrm => h r (List.mem_cons_of_mem _ hrm))

theorem map_self (f : Char → Char) :
    ∀ l : List Char, (∀ c ∈ l, f c = c) → l.map f = l := by
  intro l
  induction l with
  | nil => intro _; rfl
  | cons c rest ih =>
    intro h
    rw [List.map_cons, h c (List.mem_cons_self c rest),
      ih (fun x hx => h x (List.mem_cons_of_mem _ hx))]

/-- Sanitized text never contains a tab (it went through the tab pass). -/
theorem sanitize_no_tab (text : List Char) (options : SanitizeOptions) :
    ∀ c ∈ sanitizeText text options, tabToSpace c = c := by
  intro c hc
  unfold sanitizeText at hc
  obtain ⟨c0, _, hc0⟩ := List.mem_map.mp hc
  rw [← hc0]
  by_cases h : c0 = '\t' <;> simp [tabToSpace, h]

/-! ## Offset fidelity of emitted diagnostics -/

/-- Every diagnostic of a check pass on a CRLF-free document addresses, in
the original document, exactly the token that was extracted from the
sanitized text, and its code is that token's apostrophe normalization. -/
theorem diagnostic_ranges_core (settings : SpellSettings)
    (userPatterns : List Matcher) (check : List Char → Bool) (docText : List Char)
    (h : hasCRLF docText = false) :
    ∀ d ∈ (doSpellCheckCore settings userPatterns check docText).diagnostics,
      sliceRange docText d.startOffset d.endOffset =
        sliceRange (sanitizeText docText ⟨none, some userPatterns⟩)
          d.startOffset d.endOffset ∧
      normalizeWord (sliceRange docText d.startOffset d.endOffset) = d.code := by
  intro d hd
  have hnorm : normalizeNewlines docText = docText :=
    normalizeNewlines_eq_self docText h
  have hd' : d ∈ (checkTokens settings.maxDiagnostics settings.ignoreWordsList
      check (tokenize (sanitizeText docText ⟨none, some userPatterns⟩)) [] 0 0).diagnostics := by
    unfold doSpellCheckCore at hd
    rw [hnorm] at hd
    exact hd
  rcases checkTokens_diag_source _ _ _ _ _ _ _ d hd' with hmem | ⟨tok, htok, heq⟩
  · simp at hmem
  subst heq
  obtain ⟨htext, h4, hpoint, hchars⟩ :=
    tokenize_spec (sanitizeText docText ⟨none, some userPatterns⟩) tok htok
  simp only [mkDiagnostic]
  have hL : tok.index + tok.text.length - tok.index = tok.text.length := by omega
  have hslice_san :
      sliceRange (sanitizeText docText ⟨none, some userPatterns⟩) tok.index
        (tok.index + tok.text.length) = tok.text := by
    rw [sliceRange, hL, ← htext]
  have hslice_doc :
      sliceRange docText tok.index (tok.index + tok.text.length) =
        sliceRange (sanitizeText docText ⟨none, some userPatterns⟩) tok.index
          (tok.index + tok.text.length) := by
    apply List.ext_getElem?
    intro j
    rw [sliceRange, sliceRange, hL]
    by_cases hj : j < tok.text.length
    · rw [List.getElem?_take_of_lt hj, List.getElem?_take_of_lt hj,
        List.getElem?_drop, List.getElem?_drop]
      cases hcj : tok.text[j]? with
      | none =>
        have hlen := List.getElem?_eq_none_iff.mp hcj
        omega
      | some c =>
        have hsome :
            (sanitizeText docText ⟨none, some userPatterns⟩)[tok.index + j]? = some c := by
          rw [hpoint j hj, hcj]
        have hw : wordTailChar c = true :=
          hchars c (List.getElem?_mem hcj)
        rw [hsome,
          sanitized_nonspace_char docText ⟨none, some userPatterns⟩ (tok.index + j) c
            hsome (wordTail_ne_space c hw)]
    · have hnone1 : (List.take tok.text.length (List.drop tok.index docText)).length ≤ j := by
        simp only [List.length_take]
        omega
      have hnone2 :
          (List.take tok.text.length
            (List.drop tok.index (sanitizeText docText ⟨none, some userPatterns⟩))).length ≤ j := by
        simp only [List.length_take]
        omega
      rw [List.getElem?_eq_none hnone1, List.getElem?_eq_none hnone2]
  refine ⟨hslice_doc, ?_⟩
  rw [hslice_doc, hslice_san]

/-! ## The claims -/

/-- C1.  For every input text and every list of removal patterns (built-in
and user-supplied), `sanitizeText` returns a text of exactly the same
length; every offset not inside a matched span of the chain keeps its
character, except that the final pass turns each tab into a single space;
every offset inside a matched span is overwritten with a space. -/
theorem sanitizeText_length_and_offsets (text : List Char)
    (options : SanitizeOptions) :
    (sanitizeText text options).length = text.length ∧
    ∀ i : Nat, (sanitizeText text options)[i]? =
      text[i]?.map
        (fun c => if sanitizeCovered text options i then ' ' else tabToSpace c) :=
  sanitize_pointwise text options

/-- C2, counterexample to the unrestricted claim.  On the CRLF document
`"aa\r\nhelo"` the diagnostic for `helo` carries offsets computed in the
LF-normalized text, so slicing the original document yields `"\nhel"`, not
the looked-up word; and on `"abc’d"` (curly apostrophe) the slice is the
original token while the looked-up code is its straightened normalization,
so they differ as well. -/
theorem diagnostic_range_counterexample :
    (doSpellCheckCore
        ⟨DictionaryCode.en_US, [], [], [], [], [], 3000, true, 250, 5⟩
        [] (fun _ => false) ("aa\r\nhelo".toList)).diagnostics =
      [⟨3, 7, "helo".toList⟩] ∧
    decide (sliceRange ("aa\r\nhelo".toList) 3 7 = "helo".toList) = false ∧
    (doSpellCheckCore
        ⟨DictionaryCode.en_US, [], [], [], [], [], 3000, true, 250, 5⟩
        [] (fun _ => false) ['a', 'b', 'c', curlyApostrophe, 'd']).diagnostics =
      [⟨0, 5, normalizeWord ['a', 'b', 'c', curlyApostrophe, 'd']⟩] ∧
    decide (sliceRange ['a', 'b', 'c', curlyApostrophe, 'd'] 0 5 =
      normalizeWord ['a', 'b', 'c', curlyApostrophe, 'd']) = false := by
  refine ⟨by decide, by decide, by decide, by decide⟩

/-- C2 (amended).  For every document whose text contains no CRLF pair,
every emitted diagnostic's range slices out of the original document
exactly the characters of the token extracted from the sanitized text
(offset fidelity survives whitespace substitution), and the word that was
looked up — the diagnostic code — is that slice with curly apostrophes
normalized to straight ones. -/
theorem diagnostic_ranges_faithful (settings : SpellSettings)
    (userPatterns : List Matcher) (check : List Char → Bool)
    (docText : List Char) (h : hasCRLF docText = false) :
    ∀ d ∈ (doSpellCheckCore settings userPatterns check docText).diagnostics,
      sliceRange docText d.startOffset d.endOffset =
        sliceRange (sanitizeText docText ⟨none, some userPatterns⟩)
          d.startOffset d.endOffset ∧
      normalizeWord (sliceRange docText d.startOffset d.endOffset) = d.code :=
  diagnostic_ranges_core settings userPatterns check docText h

/-- Witness for C2 on the document `"aaaa helo"`. -/
theorem diagnostic_ranges_faithful_witness :
    hasCRLF ("aaaa helo".toList) = false ∧
    (⟨0, 4, "aaaa".toList⟩ : Diagnostic) ∈
      (doSpellCheckCore
        ⟨DictionaryCode.en_US, [], [], [], [], [], 3000, true, 250, 5⟩
        [] (fun _ => false) ("aaaa helo".toList)).diagnostics ∧
    (sliceRange ("aaaa helo".toList) 0 4 =
        sliceRange (sanitizeText ("aaaa helo".toList) ⟨none, some []⟩) 0 4 ∧
      normalizeWord (sliceRange ("aaaa helo".toList) 0 4) = "aaaa".toList) :=
  ⟨by decide, by decide,
    diagnostic_ranges_faithful
      ⟨DictionaryCode.en_US, [], [], [], [], [], 3000, true, 250, 5⟩
      [] (fun _ => false) ("aaaa helo".toList) (by decide)
      ⟨0, 4, "aaaa".toList⟩ (by decide)⟩

/-- C3, counterexample to the unrestricted claim.  With
`maxDiagnostics = 0` a pass over `"helo"` still emits one diagnostic, which
exceeds the claimed cap; and with `maxDiagnostics = 1` a pass over
twenty-one ignored tokens scans 21 tokens, exceeding the claimed
`maxDiagnostics * 20` token cap, because the `continue` taken for ignored
(or digit-containing) tokens skips the cap test at the bottom of the loop
body. -/
theorem check_caps_counterexample :
    decide (((doSpellCheckCore
        ⟨DictionaryCode.en_US, [], [], [], [], [], 3000, true, 0, 5⟩
        [] (fun _ => false) ("helo".toList)).diagnostics.length : Int) ≤ 0) =
      false ∧
    decide (((doSpellCheckCore
        ⟨DictionaryCode.en_US, ["aaaa".toList], [], [], [], [], 3000, true, 1, 5⟩
        [] (fun _ => false)
        ("aaaa aaaa aaaa aaaa aaaa aaaa aaaa aaaa aaaa aaaa aaaa aaaa aaaa aaaa aaaa aaaa aaaa aaaa aaaa aaaa aaaa".toList)).processedTokens :
        Int) ≤ 1 * 20) = false := by
  refine ⟨by decide, by decide⟩

/-- C3 (amended).  For every pass with `maxDiagnostics ≥ 1`: at most
`maxDiagnostics` diagnostics are emitted and the overflow notice is raised
at most once.  The token cap `maxDiagnostics * 20` is consulted only at
tokens that reach the dictionary-check stage — tokens discarded by the
digit or ignore filter `continue` past it — so the scanned-token bound
holds whenever the ignore list is empty (the digit filter never fires, see
C10). -/
theorem check_caps_bound (settings : SpellSettings) (userPatterns : List Matcher)
    (check : List Char → Bool) (docText : List Char)
    (hm : 1 ≤ settings.maxDiagnostics) :
    (((doSpellCheckCore settings userPatterns check docText).diagnostics.length : Int) ≤
        settings.maxDiagnostics) ∧
    (doSpellCheckCore settings userPatterns check docText).overflowNotices ≤ 1 ∧
    (settings.ignoreWordsList.isEmpty = false ∨
      (((doSpellCheckCore settings userPatterns check docText).processedTokens : Int) ≤
        settings.maxDiagnostics * 20)) := by
  unfold doSpellCheckCore
  refine ⟨checkTokens_diag_bound _ _ _ _ _ _ _ (by simp; omega),
    checkTokens_notice_bound _ _ _ _ _ _ _, ?_⟩
  by_cases hig : settings.ignoreWordsList = []
  · right
    rw [hig]
    exact checkTokens_token_cap _ _ _ _ _ _
      (fun tok htok => tokenize_digit_free _ tok htok) (by omega)
  · left
    cases hlist : settings.ignoreWordsList with
    | nil => exact absurd hlist hig
    | cons a as => rfl

/-- Witness for C3 at `maxDiagnostics = 1` on `"helo"`. -/
theorem check_caps_bound_witness :
    (1 : Int) ≤ (1 : Int) ∧
    ((((doSpellCheckCore
        ⟨DictionaryCode.en_US, [], [], [], [], [], 3000, true, 1, 5⟩
        [] (fun _ => false) ("helo".toList)).diagnostics.length : Int) ≤ 1) ∧
      (doSpellCheckCore
        ⟨DictionaryCode.en_US, [], [], [], [], [], 3000, true, 1, 5⟩
        [] (fun _ => false) ("helo".toList)).overflowNotices ≤ 1 ∧
      ((([] : List (List Char)).isEmpty = false) ∨
        (((doSpellCheckCore
          ⟨DictionaryCode.en_US, [], [], [], [], [], 3000, true, 1, 5⟩
          [] (fun _ => false) ("helo".toList)).processedTokens : Int) ≤ 1 * 20))) :=
  ⟨by decide,
    check_caps_bound
      ⟨DictionaryCode.en_US, [], [], [], [], [], 3000, true, 1, 5⟩
      [] (fun _ => false) ("helo".toList) (by decide)⟩

/-- C4.  A diagnostic's code is never a member of the merged ignore word
list: tokens whose normalized form is ignored are skipped before the
dictionary is consulted, so no diagnostic is emitted for them no matter
what the oracle answers. -/
theorem ignored_words_never_flagged (settings : SpellSettings)
    (userPatterns : List Matcher) (check : List Char → Bool)
    (docText : List Char) :
    ∀ d ∈ (doSpellCheckCore settings userPatterns check docText).diagnostics,
      settings.ignoreWordsList.contains d.code = false := by
  intro d hd
  unfold doSpellCheckCore at hd
  exact checkTokens_respects_ignore _ _ _ _ _ _ _
    (fun d' hd' => absurd hd' (List.not_mem_nil d')) d hd

/-- Witness for C4: with `qqqq` ignored and a dictionary rejecting
everything, the pass over `"helo qqqq"` flags only `helo`. -/
theorem ignored_words_never_flagged_witness :
    (⟨0, 4, "helo".toList⟩ : Diagnostic) ∈
      (doSpellCheckCore
        ⟨DictionaryCode.en_US, ["qqqq".toList], [], [], [], [], 3000, true, 250, 5⟩
        [] (fun _ => false) ("helo qqqq".toList)).diagnostics ∧
    (["qqqq".toList] : List (List Char)).contains ("helo".toList) = false :=
  ⟨by decide,
    ignored_words_never_flagged
      ⟨DictionaryCode.en_US, ["qqqq".toList], [], [], [], [], 3000, true, 250, 5⟩
      [] (fun _ => false) ("helo qqqq".toList)
      ⟨0, 4, "helo".toList⟩ (by decide)⟩

/-- C5.  When the dictionary files cannot be read or parsed, the provider's
`loadDictionary` surfaces exactly one error message, keeps the old service
state, so a service that was not ready stays not ready, `shouldCheck`
rejects every document (checking is disabled), and a subsequent successful
load makes the service ready again. -/
theorem load_failure_disables_checking (service : SpellServiceState)
    (language lang2 : DictionaryCode) (e : String) (settings : SpellSettings)
    (doc : DocumentInfo) (h : SpellService.isReady service = false) :
    (loadDictionary service language (Except.error e)).1 = service ∧
    (loadDictionary service language (Except.error e)).2 =
      [loadErrorMessage language e] ∧
    SpellService.isReady (loadDictionary service language (Except.error e)).1 =
      false ∧
    shouldCheck (loadDictionary service language (Except.error e)).1 settings
      doc = false ∧
    SpellService.isReady
      (loadDictionary (loadDictionary service language (Except.error e)).1
        lang2 (Except.ok ())).1 = true := by
  refine ⟨rfl, rfl, h, ?_, rfl⟩
  show shouldCheck service settings doc = false
  simp [shouldCheck, h]

/-- Witness for C5 on a fresh (never loaded) service. -/
theorem load_failure_disables_checking_witness :
    SpellService.isReady ⟨none⟩ = false ∧
    ((loadDictionary ⟨none⟩ DictionaryCode.en_US (Except.error "ENOENT")).1 =
        (⟨none⟩ : SpellServiceState) ∧
      (loadDictionary ⟨none⟩ DictionaryCode.en_US (Except.error "ENOENT")).2 =
        [loadErrorMessage DictionaryCode.en_US "ENOENT"] ∧
      SpellService.isReady
        (loadDictionary ⟨none⟩ DictionaryCode.en_US (Except.error "ENOENT")).1 =
        false ∧
      shouldCheck
        (loadDictionary ⟨none⟩ DictionaryCode.en_US (Except.error "ENOENT")).1
        ⟨DictionaryCode.en_US, [], ["markdown".toList], [], [], [], 3000, true, 250, 5⟩
        ⟨"file".toList, "markdown".toList, ".md".toList, "a.md".toList⟩ = false ∧
      SpellService.isReady
        (loadDictionary
          (loadDictionary ⟨none⟩ DictionaryCode.en_US (Except.error "ENOENT")).1
          DictionaryCode.fr (Except.ok ())).1 = true) :=
  ⟨by decide,
    load_failure_disables_checking ⟨none⟩ DictionaryCode.en_US DictionaryCode.fr
      "ENOENT"
      ⟨DictionaryCode.en_US, [], ["markdown".toList], [], [], [], 3000, true, 250, 5⟩
      ⟨"file".toList, "markdown".toList, ".md".toList, "a.md".toList⟩
      (by decide)⟩

/-- C6.  Calling `check` before a successful load has completed throws the
`assertReady` precondition error — it never returns a boolean. -/
theorem check_before_load_errors (st : SpellServiceState)
    (oracle : List Char → Bool) (word : List Char)
    (h : SpellService.isReady st = false) :
    SpellService.check st oracle word = Except.error notLoadedMessage := by
  unfold SpellService.check SpellService.assertReady
  cases hll : st.loadedLanguage with
  | none => rfl
  | some l =>
    rw [SpellService.isReady, hll] at h
    simp at h

/-- Witness for C6 on a fresh service and the word `hello`. -/
theorem check_before_load_errors_witness :
    SpellService.isReady ⟨none⟩ = false ∧
    SpellService.check ⟨none⟩ (fun _ => true) ("hello".toList) =
      Except.error notLoadedMessage :=
  ⟨by decide,
    check_before_load_errors ⟨none⟩ (fun _ => true) ("hello".toList) (by decide)⟩

/-- C7.  For every word, limit and service state, when the backing
suggester raises, `safeSuggest` returns the empty list (the failure never
reaches the caller) and `provideCodeActions` offers no Replace action while
still offering the Ignore and Always-Ignore actions. -/
theorem suggest_failure_degrades (st : SpellServiceState) (limit : Nat)
    (word : List Char) (e : String) :
    safeSuggest st (Except.error e) limit = [] ∧
    provideCodeActions st (Except.error e) limit word =
      [CodeAction.ignoreWord word, CodeAction.alwaysIgnoreWord word] := by
  have hs : safeSuggest st (Except.error e) limit = [] := by
    unfold safeSuggest SpellService.suggest SpellService.assertReady
    cases st.loadedLanguage <;> rfl
  refine ⟨hs, ?_⟩
  unfold provideCodeActions
  rw [hs]
  rfl

/-- C8, counterexample.  Sanitization with the built-in pattern set is not
idempotent: on (backtick-heavy) input BBaBbBBcB — writing B for a
backtick — inline-code blanking leaves the two unpaired backticks around a
blanked region, and on a second pass they pair up and more text is
blanked. -/
theorem sanitize_not_idempotent_counterexample :
    decide
      (sanitizeText
          (sanitizeText ([backquote, backquote, 'a', backquote, 'b',
            backquote, backquote, 'c', backquote]) builtinOnlyOptions)
          builtinOnlyOptions =
        sanitizeText ([backquote, backquote, 'a', backquote, 'b',
          backquote, backquote, 'c', backquote]) builtinOnlyOptions) = false := by
  decide

/-- C8 (amended).  A second sanitization pass with the built-in pattern set
changes nothing precisely on those texts whose once-sanitized form matches
none of the built-in patterns; in general re-sanitizing can blank further
text (unpaired backticks left by inline-code blanking can pair up on the
second run, as the counterexample shows). -/
theorem sanitize_idempotent_on_stable (t : List Char)
    (h : builtinMatchersSilent (sanitizeText t builtinOnlyOptions) = true) :
    sanitizeText (sanitizeText t builtinOnlyOptions) builtinOnlyOptions =
      sanitizeText t builtinOnlyOptions := by
  have hsilent : ∀ regex ∈ DEFAULT_REMOVAL_PATTERNS,
      regex (sanitizeText t builtinOnlyOptions) = [] := by
    intro regex hregex
    exact eq_of_beq (List.all_eq_true.mp h regex hregex)
  show ((([] : List Matcher)).foldl replaceWithSpaces
      (DEFAULT_REMOVAL_PATTERNS.foldl replaceWithSpaces
        (sanitizeText t builtinOnlyOptions))).map tabToSpace = _
  rw [List.foldl_nil, foldl_silent DEFAULT_REMOVAL_PATTERNS _ hsilent]
  exact map_self tabToSpace _ (sanitize_no_tab t builtinOnlyOptions)

/-- Witness for C8 on the stable text `"hello"`. -/
theorem sanitize_idempotent_on_stable_witness :
    builtinMatchersSilent (sanitizeText ("hello".toList) builtinOnlyOptions) =
      true ∧
    sanitizeText (sanitizeText ("hello".toList) builtinOnlyOptions)
        builtinOnlyOptions =
      sanitizeText ("hello".toList) builtinOnlyOptions :=
  ⟨by decide, sanitize_idempotent_on_stable ("hello".toList) (by decide)⟩

/-- C9.  Whenever `checkInterval < 0`, a change event and an open/save
event schedule nothing (no timer, no immediate check), while a manual
check command still runs the full pass on any document that passes
`shouldCheck` — the manual path never consults `checkInterval`. -/
theorem negative_interval_disables_auto_checks (service : SpellServiceState)
    (settings : SpellSettings) (doc : DocumentInfo) (auto : Bool)
    (now lastcheck : Int) (userPatterns : List Matcher)
    (check : List Char → Bool) (docText : List Char)
    (h : settings.checkInterval < 0)
    (hs : shouldCheck service settings doc = true) :
    onDocumentChanged service settings doc auto now lastcheck =
      ScheduleAction.noAction ∧
    maybeAutoCheck service settings doc auto = ScheduleAction.noAction ∧
    manualCheckDocument service settings userPatterns check doc docText =
      some (doSpellCheckCore settings userPatterns check docText) := by
  refine ⟨?_, ?_, ?_⟩
  · unfold onDocumentChanged
    rw [if_neg (by simp [hs]), if_pos (Or.inl h)]
  · unfold maybeAutoCheck
    rw [if_pos (Or.inl h)]
  · unfold manualCheckDocument
    rw [if_pos hs]

/-- Witness for C9 with `checkInterval = -1` on a checkable markdown
document. -/
theorem negative_interval_disables_auto_checks_witness :
    ((-1 : Int) < 0) ∧
    shouldCheck ⟨some DictionaryCode.en_US⟩
      ⟨DictionaryCode.en_US, [], ["markdown".toList], [], [], [], -1, true, 250, 5⟩
      ⟨"file".toList, "markdown".toList, ".md".toList, "a.md".toList⟩ = true ∧
    (onDocumentChanged ⟨some DictionaryCode.en_US⟩
        ⟨DictionaryCode.en_US, [], ["markdown".toList], [], [], [], -1, true, 250, 5⟩
        ⟨"file".toList, "markdown".toList, ".md".toList, "a.md".toList⟩
        true 0 (-1) = ScheduleAction.noAction ∧
      maybeAutoCheck ⟨some DictionaryCode.en_US⟩
        ⟨DictionaryCode.en_US, [], ["markdown".toList], [], [], [], -1, true, 250, 5⟩
        ⟨"file".toList, "markdown".toList, ".md".toList, "a.md".toList⟩
        true = ScheduleAction.noAction ∧
      manualCheckDocument ⟨some DictionaryCode.en_US⟩
        ⟨DictionaryCode.en_US, [], ["markdown".toList], [], [], [], -1, true, 250, 5⟩
        [] (fun _ => true)
        ⟨"file".toList, "markdown".toList, ".md".toList, "a.md".toList⟩
        ("hello".toList) =
        some (doSpellCheckCore
          ⟨DictionaryCode.en_US, [], ["markdown".toList], [], [], [], -1, true, 250, 5⟩
          [] (fun _ => true) ("hello".toList))) :=
  ⟨by decide, by decide,
    negative_interval_disables_auto_checks ⟨some DictionaryCode.en_US⟩
      ⟨DictionaryCode.en_US, [], ["markdown".toList], [], [], [], -1, true, 250, 5⟩
      ⟨"file".toList, "markdown".toList, ".md".toList, "a.md".toList⟩
      true 0 (-1) [] (fun _ => true) ("hello".toList)
      (by decide) (by decide)⟩

/-- C10.  Every token of the word-extraction rule consists only of letters
and apostrophes, and its normalized form never contains a digit — the
digit-discard branch of the check pass is unreachable. -/
theorem tokens_are_digit_free (s : List Char) (tok : Token)
    (htok : tok ∈ tokenize s) :
    tok.text.all wordTailChar = true ∧
    containsDigit (normalizeWord tok.text) = false :=
  ⟨List.all_eq_true.mpr (tokenize_spec s tok htok).2.2.2,
    tokenize_digit_free s tok htok⟩

/-- Witness for C10 on the token extracted from `"helo"`. -/
theorem tokens_are_digit_free_witness :
    (⟨0, "helo".toList⟩ : Token) ∈ tokenize ("helo".toList) ∧
    ((⟨0, "helo".toList⟩ : Token).text.all wordTailChar = true ∧
      containsDigit (normalizeWord (⟨0, "helo".toList⟩ : Token).text) = false) :=
  ⟨by decide, tokens_are_digit_free ("helo".toList) ⟨0, "helo".toList⟩ (by decide)⟩

end SpellChecker
